import Mathlib

/-!
# Verification of the schema.org recipe decoder (`src/schema_org.rs`)

A shallow embedding of the crate's tolerant, shape-sniffing JSON-LD decoder.

JSON values are modelled by an inductive `Json` tree: the JSON *syntax*
parser (serde_json's tokenizer) is an external collaborator, so theorems
about text-level entry points are parameterized by an abstract
`String → Option Json` parser.  Likewise the ISO-8601 duration grammar
parser (the `iso8601_duration` crate) is external and appears as an
abstract `String → Option Duration` parameter.

Each `#[derive(Deserialize)]` type is embedded as a Lean inductive/structure
with a `deserialize` function `Json → Option T`:

* `#[serde(untagged)]` enums try their variants in declaration order and
  commit to the first structural match (`<|>` on `Option`).
* Derived structs read each recognized (possibly `#[serde(rename)]`d) key
  from the object, ignore unknown keys (serde's default), fail when a
  required field is missing or its value does not deserialize, and map a
  present `null` in an `Option` field to `None`.  JSON objects reaching the
  derived visitors have unique keys (serde_json's map construction resolves
  duplicates before field access), so the embedding reads each recognized
  key with a first-occurrence lookup.
* `Vec<T>` fields/variants deserialize element-wise, failing as soon as one
  element fails (serde's sequence visitor loop).
-/

/-- A JSON value, as produced by the external JSON syntax parser
(`serde_json::Value`).  Objects are finite key/value lists. -/
inductive Json where
  | null : Json
  | bool (b : Bool) : Json
  | num (n : ℚ) : Json
  | str (s : String) : Json
  | arr (elems : List Json) : Json
  | obj (fields : List (String × Json)) : Json

/-- First-occurrence key lookup in a JSON object's field list. -/
def Json.find? (fields : List (String × Json)) (key : String) : Option Json :=
  match fields with
  | [] => none
  | (k, v) :: rest => if k = key then some v else Json.find? rest key

/-- Rust `String`'s serde deserializer: succeeds exactly on a JSON string. -/
def decodeString : Json → Option String
  | .str s => some s
  | _ => none

/-- serde's sequence visitor loop: decode every element with `f`, failing as
soon as one element fails. -/
def decodeEach (f : Json → Option α) : List Json → Option (List α)
  | [] => some []
  | j :: rest => do
      let x ← f j
      let xs ← decodeEach f rest
      pure (x :: xs)

/-- Rust `Vec<T>`'s serde deserializer: a JSON array whose every element decodes. -/
def decodeList (f : Json → Option α) : Json → Option (List α)
  | .arr xs => decodeEach f xs
  | _ => none

/-- serde's handling of a struct field of type `Option<T>`: an absent key or
a present `null` yields `None`; any other present value must decode with `f`
(a failure fails the whole struct). -/
def decodeOptField (f : Json → Option α) : Option Json → Option (Option α)
  | none => some none
  | some .null => some none
  | some v => (f v).map some

/-- The `iso8601_duration` crate's `Duration` (six numeric components); the
crate stores `f32`s, modelled as rationals since no claim computes on them. -/
structure Duration where
  year : ℚ
  month : ℚ
  day : ℚ
  hour : ℚ
  minute : ℚ
  second : ℚ
deriving DecidableEq, Repr

/-- Rust `MaybeDuration(Option<Duration>)`. -/
structure MaybeDuration where
  val : Option Duration
deriving DecidableEq, Repr

/-- Accessor `MaybeDuration::duration`. -/
def MaybeDuration.duration (m : MaybeDuration) : Option Duration :=
  m.val

/-- Rust `MaybeDuration`'s hand-written `Deserialize`:
`Ok(Self(Deserialize::deserialize(deserializer).ok()))` — parse the value as
an ISO-8601 duration (the crate's `Duration` deserializer expects a JSON
string and runs the external grammar parser `parse` on it) and collapse any
failure to absence; the outer decode itself never fails. -/
def MaybeDuration.deserialize (parse : String → Option Duration) (j : Json) :
    Option MaybeDuration :=
  some ⟨(decodeString j).bind parse⟩

/-- Rust `IngredientList`: untagged `Single(String)` / `Multi(Vec<String>)`. -/
inductive IngredientList where
  | Single (s : String) : IngredientList
  | Multi (v : List String) : IngredientList
deriving DecidableEq, Repr

/-- Rust `IngredientList`'s untagged deserializer: single string first, then
sequence of strings. -/
def IngredientList.deserialize (j : Json) : Option IngredientList :=
  ((decodeString j).map .Single) <|> ((decodeList decodeString j).map .Multi)

/-- Rust `impl IntoIterator for IngredientList`: a single ingredient collapses to
a one-element sequence. -/
def IngredientList.into_iter : IngredientList → List String
  | .Single s => [s]
  | .Multi v => v

/-- Rust `Instruction`: untagged `Simple(String)` / `Structured { text: String }`. -/
inductive Instruction where
  | Simple (s : String) : Instruction
  | Structured (text : String) : Instruction
deriving DecidableEq, Repr

/-- The `Structured { text }` variant: an object carrying a string `text`
field (unknown fields ignored). -/
def Instruction.decodeStructured : Json → Option Instruction
  | .obj fs => ((Json.find? fs "text").bind decodeString).map .Structured
  | _ => none

/-- Rust `Instruction`'s untagged deserializer: bare string first, then
structured object. -/
def Instruction.deserialize (j : Json) : Option Instruction :=
  ((decodeString j).map .Simple) <|> Instruction.decodeStructured j

/-- Rust `impl Display for Instruction`: renders to its text. -/
def Instruction.display : Instruction → String
  | .Simple s => s
  | .Structured text => text

/-- Rust `InstructionSection { name, #[serde(rename = "itemListElement")] directions }`. -/
structure InstructionSection where
  name : String
  directions : List Instruction
deriving DecidableEq, Repr

/-- Rust `InstructionSection`'s derived struct deserializer. -/
def InstructionSection.deserialize : Json → Option InstructionSection
  | .obj fs => do
      let n ← (Json.find? fs "name").bind decodeString
      let d ← (Json.find? fs "itemListElement").bind
        (decodeList Instruction.deserialize)
      pure ⟨n, d⟩
  | _ => none

/-- Rust `InstructionList`: untagged `Single(Instruction)` / `Multi(Vec<Instruction>)`
/ `Sections(Vec<InstructionSection>)`. -/
inductive InstructionList where
  | Single (i : Instruction) : InstructionList
  | Multi (v : List Instruction) : InstructionList
  | Sections (v : List InstructionSection) : InstructionList
deriving DecidableEq, Repr

/-- Rust `InstructionList`'s untagged deserializer: single instruction, then
sequence of instructions, then sequence of named sections. -/
def InstructionList.deserialize (j : Json) : Option InstructionList :=
  ((Instruction.deserialize j).map .Single) <|>
    ((decodeList Instruction.deserialize j).map .Multi) <|>
    ((decodeList InstructionSection.deserialize j).map .Sections)

/-- Rust `InstructionList::sections`: present exactly for the `Sections` shape. -/
def InstructionList.sections : InstructionList → Option (List InstructionSection)
  | .Sections v => some v
  | _ => none

/-- Rust `InstructionList::directions`: present for `Single` (one-element list)
and `Multi`; absent for `Sections`. -/
def InstructionList.directions : InstructionList → Option (List Instruction)
  | .Single i => some [i]
  | .Multi v => some v
  | _ => none

/-- Rust `Quantity`: untagged `Number(f64)` / `String(String)` (constructors
lowercased to avoid clashing with the Lean `String` type). -/
inductive Quantity where
  | number (n : ℚ) : Quantity
  | string (s : String) : Quantity
deriving DecidableEq, Repr

/-- Rust `Quantity`'s untagged deserializer: numeric first, then string. -/
def Quantity.deserialize : Json → Option Quantity
  | .num n => some (.number n)
  | .str s => some (.string s)
  | _ => none

/-- Rust `impl Default for Quantity`: the string `"N/A"`. -/
def Quantity.default : Quantity :=
  .string "N/A"

/-- Rust `impl Display for Quantity` (numeric formatting is Rust's `f64`
display, modelled by `toString` — no claim depends on it). -/
def Quantity.display : Quantity → String
  | .number n => toString n
  | .string s => s

/-- Rust `Yield`: untagged `Single(Quantity)` / `Multi(Vec<Quantity>)`. -/
inductive Yield where
  | Single (q : Quantity) : Yield
  | Multi (v : List Quantity) : Yield
deriving DecidableEq, Repr

/-- Rust `Yield`'s untagged deserializer: single quantity first, then sequence. -/
def Yield.deserialize (j : Json) : Option Yield :=
  ((Quantity.deserialize j).map .Single) <|>
    ((decodeList Quantity.deserialize j).map .Multi)

/-- Rust `impl Display for Yield`: the single quantity, or the first element of
the sequence, or the default quantity when the sequence is empty. -/
def Yield.display : Yield → String
  | .Single q => q.display
  | .Multi v =>
    match v.head? with
    | some q => q.display
    | none => Quantity.default.display

/-- The `Recipe` record. -/
structure Recipe where
  name : String
  description : String
  cook_time : Option MaybeDuration
  prep_time : Option MaybeDuration
  total_time : Option MaybeDuration
  yields : Option Yield
  ingredients : IngredientList
  directions : Option InstructionList
deriving DecidableEq, Repr

/-- Rust `Recipe`'s derived struct deserializer: `name`, `description` and
`recipeIngredient` are required; `cookTime`/`prepTime`/`totalTime` are
`Option<MaybeDuration>` (never fail when present thanks to
`MaybeDuration`'s tolerant decode); `recipeYield` and `recipeInstructions`
are plain `Option` fields whose present non-null values must decode. -/
def Recipe.deserialize (parse : String → Option Duration) : Json → Option Recipe
  | .obj fs => do
      let name ← (Json.find? fs "name").bind decodeString
      let description ← (Json.find? fs "description").bind decodeString
      let cook_time ← decodeOptField (MaybeDuration.deserialize parse)
        (Json.find? fs "cookTime")
      let prep_time ← decodeOptField (MaybeDuration.deserialize parse)
        (Json.find? fs "prepTime")
      let total_time ← decodeOptField (MaybeDuration.deserialize parse)
        (Json.find? fs "totalTime")
      let yields ← decodeOptField Yield.deserialize (Json.find? fs "recipeYield")
      let ingredients ← (Json.find? fs "recipeIngredient").bind
        IngredientList.deserialize
      let directions ← decodeOptField InstructionList.deserialize
        (Json.find? fs "recipeInstructions")
      pure ⟨name, description, cook_time, prep_time, total_time, yields,
        ingredients, directions⟩
  | _ => none

/-- Top-level alias for the `Recipe` type: inside the envelope types'
namespaces the bare name `Recipe` resolves to their own `Recipe`
constructor. -/
abbrev RecipeRecord : Type :=
  Recipe

/-- Top-level alias for `Recipe.deserialize`: inside the envelope
deserializers the bare name `Recipe` would resolve to their own `Recipe`
constructor. -/
def decodeRecipe (parse : String → Option Duration) (j : Json) : Option Recipe :=
  Recipe.deserialize parse j

/-- Rust `GraphEntry`: untagged `Recipe(Box<Recipe>)` / `Nonsense { #[serde(rename = "@id")] id }`. -/
inductive GraphEntry where
  | Recipe (r : Recipe) : GraphEntry
  | Nonsense (id : String) : GraphEntry
deriving DecidableEq, Repr

/-- Rust `GraphEntry`'s untagged deserializer: recipe first, then the `@id`
placeholder. -/
def GraphEntry.deserialize (parse : String → Option Duration) (j : Json) :
    Option GraphEntry :=
  ((decodeRecipe parse j).map .Recipe) <|>
    (match j with
     | .obj fs => ((Json.find? fs "@id").bind decodeString).map .Nonsense
     | _ => none)

/-- Rust `GraphEntry::recipe`. -/
def GraphEntry.recipe : GraphEntry → Option RecipeRecord
  | .Recipe r => some r
  | .Nonsense _ => none

/-- Rust `SchemaItem`: untagged `Recipe(Box<Recipe>)` / `Nonsense { #[serde(rename = "@context")] context }`. -/
inductive SchemaItem where
  | Recipe (r : Recipe) : SchemaItem
  | Nonsense (context : String) : SchemaItem
deriving DecidableEq, Repr

/-- Rust `SchemaItem`'s untagged deserializer: recipe first, then the `@context`
placeholder. -/
def SchemaItem.deserialize (parse : String → Option Duration) (j : Json) :
    Option SchemaItem :=
  ((decodeRecipe parse j).map .Recipe) <|>
    (match j with
     | .obj fs => ((Json.find? fs "@context").bind decodeString).map .Nonsense
     | _ => none)

/-- Rust `SchemaItem::recipe`. -/
def SchemaItem.recipe : SchemaItem → Option RecipeRecord
  | .Recipe r => some r
  | .Nonsense _ => none

/-- Rust `SchemaEntry`: untagged `Graph { #[serde(rename = "@graph")] graph }` /
`Single(SchemaItem)` / `Multi(Vec<SchemaItem>)`. -/
inductive SchemaEntry where
  | Graph (graph : List GraphEntry) : SchemaEntry
  | Single (item : SchemaItem) : SchemaEntry
  | Multi (entries : List SchemaItem) : SchemaEntry
deriving DecidableEq, Repr

/-- Rust `SchemaEntry`'s untagged deserializer: `@graph`-wrapped container first,
then single item, then sequence of items. -/
def SchemaEntry.deserialize (parse : String → Option Duration) (j : Json) :
    Option SchemaEntry :=
  (match j with
   | .obj fs => ((Json.find? fs "@graph").bind
      (decodeList (GraphEntry.deserialize parse))).map .Graph
   | _ => none) <|>
    ((SchemaItem.deserialize parse j).map .Single) <|>
    ((decodeList (SchemaItem.deserialize parse) j).map .Multi)

/-- Rust `SchemaEntry::extract_recipes` (the `Extract` impl): keep exactly the
entries that resolved to a recipe, in source order. -/
def SchemaEntry.extract_recipes : SchemaEntry → List Recipe
  | .Graph graph => graph.filterMap GraphEntry.recipe
  | .Single r => r.recipe.toList
  | .Multi entries => entries.filterMap SchemaItem.recipe

/-- Rust `SchemaEntry::from_json_str`, parameterized by the external JSON syntax
parser `parseJson` (the error detail of the `Result` is not needed by any
claim, so failure is `none`). -/
def SchemaEntry.from_json_str (parseJson : String → Option Json)
    (parse : String → Option Duration) (s : String) : Option SchemaEntry :=
  (parseJson s).bind (SchemaEntry.deserialize parse)

/-- Rust `SchemaEntry::scrape_html` (the `Scrape` impl), downstream of the
external HTML parser and CSS selector engine: `scriptTexts` is the
document-order list of concatenated text contents of the elements matching
`script[type="application/ld+json"]`; each is decoded as a `SchemaEntry`
and the blocks that fail to decode are silently discarded. -/
def SchemaEntry.scrape_html (parseJson : String → Option Json)
    (parse : String → Option Duration) (scriptTexts : List String) :
    List SchemaEntry :=
  scriptTexts.filterMap (SchemaEntry.from_json_str parseJson parse)

/-- The value a duration-typed `Option<MaybeDuration>` recipe field receives:
absent or `null` keys give `None`; any other present value gives a
`MaybeDuration` holding the grammar parse of the value when it is a string
that parses, and absence otherwise. -/
def durationField (parse : String → Option Duration) :
    Option Json → Option MaybeDuration
  | none => none
  | some .null => none
  | some v => some ⟨(decodeString v).bind parse⟩

/-- Success condition for a plain serde `Option<T>` field: an absent key or
a present `null` is fine; a present value must match one of the field type's
candidate shapes. -/
def presentFieldOk (f : Json → Option α) : Option Json → Prop
  | none => True
  | some .null => True
  | some v => (f v).isSome

/-- The spec's `["a", {"name":"b","text":"c"}]` instruction-list input. -/
def jC1 : Json := .arr [.str "a", .obj [("name", .str "b"), ("text", .str "c")]]

/-- The spec's `[{"name":"Prep","itemListElement":[{"name":"x","text":"x"}]}]`
sectioned instruction-list input. -/
def jC7 : Json := .arr [.obj [("name", .str "Prep"),
  ("itemListElement", .arr [.obj [("name", .str "x"), ("text", .str "x")]])]]

/-- A minimal valid recipe object:
`{"name":"A","description":"B","recipeIngredient":"x"}`. -/
def jRecipeA : Json := .obj [("name", .str "A"), ("description", .str "B"),
  ("recipeIngredient", .str "x")]

/-- The record `jRecipeA` decodes to. -/
def recipeA : Recipe := ⟨"A", "B", none, none, none, none, .Single "x", none⟩

/-- A `@graph` container holding one recipe object and one object carrying
only `@id`. -/
def jGraphC5 : Json := .obj [("@graph", .arr [jRecipeA, .obj [("@id", .str "y")]])]

/-- A sample external JSON syntax parser: one known-good document, all other
inputs malformed. -/
def pj0 : String → Option Json :=
  fun s => if s = "good" then some jRecipeA else none

/-- The two-second duration (`PT2S`). -/
def dur0 : Duration := ⟨0, 0, 0, 0, 0, 2⟩

/-- A sample external ISO-8601 grammar parser accepting exactly `PT2S`. -/
def parse0 : String → Option Duration :=
  fun s => if s = "PT2S" then some dur0 else none

/-- Recipe object fields whose `cookTime` value is a number, which the
duration resolver cannot parse. -/
def fsC3 : List (String × Json) := [("name", .str "A"), ("description", .str "B"),
  ("recipeIngredient", .str "x"), ("cookTime", .num 5)]

/-- The record `fsC3` decodes to: the unparseable `cookTime` resolved to a
present-but-empty duration. -/
def recipeC3 : Recipe := ⟨"A", "B", some ⟨none⟩, none, none, none, .Single "x", none⟩

theorem orElse_isSome_iff (a b : Option α) :
    (a <|> b).isSome ↔ (a.isSome ∨ b.isSome) := by
  cases a <;> simp

theorem decodeEach_isSome_iff (f : Json → Option α) (xs : List Json) :
    (decodeEach f xs).isSome ↔ ∀ j ∈ xs, (f j).isSome := by
  induction xs with
  | nil => simp [decodeEach]
  | cons j rest ih =>
      cases hj : f j with
      | none => simp [decodeEach, hj]
      | some x =>
          cases hr : decodeEach f rest with
          | none =>
              have h' := ih.symm.not.mpr (by simp [hr])
              push_neg at h'
              obtain ⟨y, hy, hfy⟩ := h'
              simp [decodeEach, hj, hr]
              exact ⟨y, hy, Option.not_isSome_iff_eq_none.mp (by simpa using hfy)⟩
          | some xs =>
              have h' := ih.mp (by simp [hr])
              simp [decodeEach, hj, hr]
              exact h'

theorem decodeEach_eq_none_of_mem (f : Json → Option α) (xs : List Json)
    (j : Json) (hmem : j ∈ xs) (hj : f j = none) : decodeEach f xs = none := by
  have := (decodeEach_isSome_iff f xs).not.mpr
    (by push_neg; exact ⟨j, hmem, by simp [hj]⟩)
  exact Option.not_isSome_iff_eq_none.mp (by simpa using this)

theorem decodeEach_decodeString_map_str (ss : List String) :
    decodeEach decodeString (ss.map Json.str) = some ss := by
  induction ss with
  | nil => rfl
  | cons s rest ih => simp [decodeEach, decodeString, ih]

theorem bind_map_decodeString_isSome_iff (g : String → α) (o : Option Json) :
    (o.bind fun a => Option.map g (decodeString a)).isSome ↔
      ∃ s, o = some (.str s) := by
  cases o with
  | none => simp
  | some v => cases v <;> simp [decodeString]

theorem bind_map_decodeList_isSome_iff (f : Json → Option α) (g : List α → β)
    (o : Option Json) :
    (o.bind fun a => Option.map g (decodeList f a)).isSome ↔
      ∃ xs, o = some (.arr xs) ∧ ∀ x ∈ xs, (f x).isSome := by
  cases o with
  | none => simp
  | some v => cases v <;> simp [decodeList, decodeEach_isSome_iff]

theorem decodeOptField_mdur_eq (parse : String → Option Duration)
    (o : Option Json) :
    decodeOptField (MaybeDuration.deserialize parse) o =
      some (durationField parse o) := by
  cases o with
  | none => rfl
  | some v => cases v <;> rfl

theorem decodeOptField_isSome_iff (f : Json → Option α) (o : Option Json) :
    (decodeOptField f o).isSome ↔ presentFieldOk f o := by
  cases o with
  | none => simp [decodeOptField, presentFieldOk]
  | some v => cases v <;> simp [decodeOptField, presentFieldOk]

theorem durationField_some_eq (parse : String → Option Duration) (v : Json)
    (hne : v ≠ .null) :
    durationField parse (some v) = some ⟨(decodeString v).bind parse⟩ := by
  cases v <;> first | exact absurd rfl hne | rfl

theorem recipe_deserialize_isSome_iff (parse : String → Option Duration)
    (fs : List (String × Json)) :
    (Recipe.deserialize parse (.obj fs)).isSome ↔
      (((Json.find? fs "name").bind decodeString).isSome ∧
       ((Json.find? fs "description").bind decodeString).isSome ∧
       ((Json.find? fs "recipeIngredient").bind IngredientList.deserialize).isSome ∧
       (decodeOptField Yield.deserialize (Json.find? fs "recipeYield")).isSome ∧
       (decodeOptField InstructionList.deserialize
         (Json.find? fs "recipeInstructions")).isSome) := by
  cases h1 : (Json.find? fs "name").bind decodeString with
  | none => simp [Recipe.deserialize, h1]
  | some name =>
    cases h2 : (Json.find? fs "description").bind decodeString with
    | none => simp [Recipe.deserialize, h1, h2]
    | some desc =>
      cases h6 : decodeOptField Yield.deserialize (Json.find? fs "recipeYield") with
      | none => simp [Recipe.deserialize, h1, h2, h6, decodeOptField_mdur_eq]
      | some y =>
        cases h7 : (Json.find? fs "recipeIngredient").bind IngredientList.deserialize with
        | none => simp [Recipe.deserialize, h1, h2, h6, h7, decodeOptField_mdur_eq]
        | some ing =>
          cases h8 : decodeOptField InstructionList.deserialize
              (Json.find? fs "recipeInstructions") with
          | none => simp [Recipe.deserialize, h1, h2, h6, h7, h8, decodeOptField_mdur_eq]
          | some dir => simp [Recipe.deserialize, h1, h2, h6, h7, h8, decodeOptField_mdur_eq]

theorem recipe_duration_components (parse : String → Option Duration)
    (fs : List (String × Json)) (r : Recipe)
    (h : Recipe.deserialize parse (.obj fs) = some r) :
    r.cook_time = durationField parse (Json.find? fs "cookTime") ∧
    r.prep_time = durationField parse (Json.find? fs "prepTime") ∧
    r.total_time = durationField parse (Json.find? fs "totalTime") := by
  simp only [Recipe.deserialize, decodeOptField_mdur_eq, Option.bind_eq_bind,
    Option.some_bind] at h
  cases h1 : (Json.find? fs "name").bind decodeString with
  | none => rw [h1] at h; simp at h
  | some name =>
    rw [h1] at h
    simp only [Option.bind_eq_bind, Option.some_bind] at h
    cases h2 : (Json.find? fs "description").bind decodeString with
    | none => rw [h2] at h; simp at h
    | some desc =>
      rw [h2] at h
      simp only [Option.bind_eq_bind, Option.some_bind] at h
      cases h6 : decodeOptField Yield.deserialize (Json.find? fs "recipeYield") with
      | none => rw [h6] at h; simp at h
      | some y =>
        rw [h6] at h
        simp only [Option.bind_eq_bind, Option.some_bind] at h
        cases h7 : (Json.find? fs "recipeIngredient").bind IngredientList.deserialize with
        | none => rw [h7] at h; simp at h
        | some ing =>
          rw [h7] at h
          simp only [Option.bind_eq_bind, Option.some_bind] at h
          cases h8 : decodeOptField InstructionList.deserialize
              (Json.find? fs "recipeInstructions") with
          | none => rw [h8] at h; simp at h
          | some dir =>
            rw [h8] at h
            simp only [Option.bind_eq_bind, Option.some_bind] at h
            obtain rfl := Option.some.inj h
            exact ⟨rfl, rfl, rfl⟩

/-- C1: decoding a JSON value as an `InstructionList` tries single
instruction, then sequence of instructions, then sequence of named sections,
committing to the first structural match; within an array attempt the
resolution is element-wise, so one element failing to match "instruction"
rejects the whole sequence-of-instructions candidate, and the sectioned
candidate is reached only when both earlier candidates were rejected; for
the input `["a", {"name":"b","text":"c"}]` the result is the sequence shape
`Multi [Simple "a", Structured "c"]`, whose flattened display texts are
`["a", "c"]`. -/
theorem C1_instruction_list_order :
    (∀ j i, Instruction.deserialize j = some i →
      InstructionList.deserialize j = some (.Single i)) ∧
    (∀ j v, Instruction.deserialize j = none →
      decodeList Instruction.deserialize j = some v →
      InstructionList.deserialize j = some (.Multi v)) ∧
    (∀ xs j, j ∈ xs → Instruction.deserialize j = none →
      decodeList Instruction.deserialize (.arr xs) = none) ∧
    (∀ j ss, InstructionList.deserialize j = some (.Sections ss) →
      Instruction.deserialize j = none ∧
      decodeList Instruction.deserialize j = none) ∧
    InstructionList.deserialize jC1 =
      some (.Multi [.Simple "a", .Structured "c"]) ∧
    (InstructionList.Multi [.Simple "a", .Structured "c"]).directions.map
      (List.map Instruction.display) = some ["a", "c"] := by
  refine ⟨?_, ?_, ?_, ?_, by rfl, by rfl⟩
  · intro j i h
    simp [InstructionList.deserialize, h]
  · intro j v h1 h2
    simp [InstructionList.deserialize, h1, h2]
  · intro xs j hmem hj
    simp [decodeList]
    exact decodeEach_eq_none_of_mem _ _ _ hmem hj
  · intro j ss h
    unfold InstructionList.deserialize at h
    cases h1 : Instruction.deserialize j with
    | some i => simp [h1] at h
    | none =>
        cases h2 : decodeList Instruction.deserialize j with
        | some v => simp [h1, h2] at h
        | none => exact ⟨rfl, rfl⟩

/-- Witness for C1 at concrete inputs: a string resolves to the single
shape, a one-string array to the sequence shape, an array with a
non-instruction element rejects the sequence candidate, and the sectioned
input of `jC7` is reached with both earlier candidates rejected. -/
theorem C1_witness :
    InstructionList.deserialize (.str "a") = some (.Single (.Simple "a")) ∧
    InstructionList.deserialize (.arr [.str "a"]) = some (.Multi [.Simple "a"]) ∧
    decodeList Instruction.deserialize (.arr [.bool true]) = none ∧
    (Instruction.deserialize jC7 = none ∧
      decodeList Instruction.deserialize jC7 = none) :=
  ⟨C1_instruction_list_order.1 _ _ rfl,
   C1_instruction_list_order.2.1 _ _ rfl rfl,
   C1_instruction_list_order.2.2.1 _ (.bool true) (List.mem_singleton.mpr rfl) rfl,
   C1_instruction_list_order.2.2.2.1 jC7 _ rfl⟩

/-- C7: the sectioned input `jC7` resolves to the sections shape with one
section named "Prep"; and for every `InstructionList` value the flat
"directions" view is present exactly for the single/multi shapes while the
"sections" view is present exactly for the sectioned shape. -/
theorem C7_views :
    InstructionList.deserialize jC7 =
      some (.Sections [⟨"Prep", [.Structured "x"]⟩]) ∧
    (InstructionList.Sections [⟨"Prep", [.Structured "x"]⟩]).directions = none ∧
    (InstructionList.Sections [⟨"Prep", [.Structured "x"]⟩]).sections =
      some [⟨"Prep", [.Structured "x"]⟩] ∧
    (∀ i, (InstructionList.Single i).directions = some [i] ∧
      (InstructionList.Single i).sections = none) ∧
    (∀ v, (InstructionList.Multi v).directions = some v ∧
      (InstructionList.Multi v).sections = none) ∧
    (∀ ss, (InstructionList.Sections ss).directions = none ∧
      (InstructionList.Sections ss).sections = some ss) :=
  ⟨rfl, rfl, rfl, fun _ => ⟨rfl, rfl⟩, fun _ => ⟨rfl, rfl⟩, fun _ => ⟨rfl, rfl⟩⟩

/-- C10: the empty JSON array decodes as an `InstructionList` to the
sequence-of-instructions shape with zero elements, so the flat directions
view is present and empty and the sections view is absent. -/
theorem C10_empty_instruction_array :
    InstructionList.deserialize (.arr []) = some (.Multi []) ∧
    (InstructionList.Multi ([] : List Instruction)).directions = some [] ∧
    (InstructionList.Multi ([] : List Instruction)).sections = none :=
  ⟨rfl, rfl, rfl⟩

/-- C8: displaying a `Yield` resolves to its single quantity, or to the
first element of a non-empty sequence, or to the default quantity (the
string "N/A") for the empty sequence; the empty JSON array decodes to the
empty sequence and displays as "N/A". -/
theorem C8_yield_display :
    (∀ q, (Yield.Single q).display = q.display) ∧
    (∀ q v, (Yield.Multi (q :: v)).display = q.display) ∧
    (Yield.Multi ([] : List Quantity)).display = Quantity.default.display ∧
    Quantity.default.display = "N/A" ∧
    Yield.deserialize (.arr []) = some (.Multi []) ∧
    (Yield.Multi ([] : List Quantity)).display = "N/A" :=
  ⟨fun _ => rfl, fun _ _ => rfl, rfl, rfl, rfl, rfl⟩

/-- C9: an `IngredientList` decoded from a bare string iterates to exactly
that one string, and one decoded from a JSON array of strings iterates to
exactly the array's elements in their original order. -/
theorem C9_ingredient_iteration :
    (∀ s, IngredientList.deserialize (.str s) = some (.Single s) ∧
      (IngredientList.Single s).into_iter = [s]) ∧
    (∀ ss : List String, IngredientList.deserialize (.arr (ss.map .str)) =
        some (.Multi ss) ∧
      (IngredientList.Multi ss).into_iter = ss) := by
  refine ⟨fun s => ⟨by simp [IngredientList.deserialize, decodeString], rfl⟩,
    fun ss => ⟨?_, rfl⟩⟩
  simp [IngredientList.deserialize, decodeString, decodeList,
    decodeEach_decodeString_map_str]

/-- C4: decoding a `MaybeDuration` never fails outward — it always produces
a value; a string the grammar parser accepts yields a present duration equal
to the direct grammar parse; any input whose grammar parse fails (wrong JSON
type or malformed token) yields absence; and at the record-field level a
missing value yields absence while a present value never fails the field. -/
theorem C4_maybe_duration_tolerant :
    (∀ (parse : String → Option Duration) j,
      (MaybeDuration.deserialize parse j).isSome) ∧
    (∀ (parse : String → Option Duration) d v, parse d = some v →
      MaybeDuration.deserialize parse (.str d) = some ⟨some v⟩) ∧
    (∀ (parse : String → Option Duration) j, (decodeString j).bind parse = none →
      MaybeDuration.deserialize parse j = some ⟨none⟩) ∧
    (∀ (parse : String → Option Duration),
      decodeOptField (MaybeDuration.deserialize parse) none = some none) ∧
    (∀ (parse : String → Option Duration) j,
      (decodeOptField (MaybeDuration.deserialize parse) (some j)).isSome) := by
  refine ⟨fun parse j => rfl, fun parse d v h => ?_, fun parse j h => ?_,
    fun parse => rfl, fun parse j => ?_⟩
  · simp [MaybeDuration.deserialize, decodeString, h]
  · simp [MaybeDuration.deserialize, h]
  · cases j <;> simp [decodeOptField, MaybeDuration.deserialize]

/-- Witness for C4 with a concrete grammar parser: the valid token `PT2S`
yields its parse, while a malformed token and a non-string input yield
absence. -/
theorem C4_witness :
    parse0 "PT2S" = some dur0 ∧
    MaybeDuration.deserialize parse0 (.str "PT2S") = some ⟨some dur0⟩ ∧
    MaybeDuration.deserialize parse0 (.str "PTnullH") = some ⟨none⟩ ∧
    MaybeDuration.deserialize parse0 (.bool true) = some ⟨none⟩ :=
  ⟨rfl,
   C4_maybe_duration_tolerant.2.1 parse0 "PT2S" dur0 rfl,
   C4_maybe_duration_tolerant.2.2.1 parse0 (.str "PTnullH") rfl,
   C4_maybe_duration_tolerant.2.2.1 parse0 (.bool true) rfl⟩

/-- C5: `extract_recipes` returns exactly the entries that resolved to a
recipe, preserving source order with no deduplication, for every envelope
shape; the concrete `@graph` container with one recipe object and one
`@id`-only object decodes (under any duration parser) and extraction
returns exactly that one recipe. -/
theorem C5_extract_recipes_order :
    (∀ parse, SchemaEntry.deserialize parse jGraphC5 =
      some (.Graph [.Recipe recipeA, .Nonsense "y"])) ∧
    (SchemaEntry.Graph [.Recipe recipeA, .Nonsense "y"]).extract_recipes =
      [recipeA] ∧
    (∀ es₁ es₂ r,
      (SchemaEntry.Graph (es₁ ++ .Recipe r :: es₂)).extract_recipes =
        (SchemaEntry.Graph es₁).extract_recipes ++
          r :: (SchemaEntry.Graph es₂).extract_recipes) ∧
    (∀ es₁ es₂ s,
      (SchemaEntry.Graph (es₁ ++ .Nonsense s :: es₂)).extract_recipes =
        (SchemaEntry.Graph es₁).extract_recipes ++
          (SchemaEntry.Graph es₂).extract_recipes) ∧
    (∀ es₁ es₂ r,
      (SchemaEntry.Multi (es₁ ++ .Recipe r :: es₂)).extract_recipes =
        (SchemaEntry.Multi es₁).extract_recipes ++
          r :: (SchemaEntry.Multi es₂).extract_recipes) ∧
    (∀ es₁ es₂ s,
      (SchemaEntry.Multi (es₁ ++ .Nonsense s :: es₂)).extract_recipes =
        (SchemaEntry.Multi es₁).extract_recipes ++
          (SchemaEntry.Multi es₂).extract_recipes) ∧
    (∀ r, (SchemaEntry.Single (.Recipe r)).extract_recipes = [r]) ∧
    (∀ s, (SchemaEntry.Single (.Nonsense s)).extract_recipes = []) := by
  refine ⟨fun parse => rfl, rfl, ?_, ?_, ?_, ?_, fun _ => rfl, fun _ => rfl⟩ <;>
    · intro es₁ es₂ x
      simp [SchemaEntry.extract_recipes, GraphEntry.recipe, SchemaItem.recipe]

/-- C6: scraping keeps exactly the candidate blocks whose text decodes as a
`SchemaEntry`, in document order, silently discarding each failing block;
in particular one valid recipe block plus one malformed block yield exactly
one decoded envelope. -/
theorem C6_scrape_discards_failures :
    (∀ pj parse t ts₁ ts₂ e, SchemaEntry.from_json_str pj parse t = some e →
      SchemaEntry.scrape_html pj parse (ts₁ ++ t :: ts₂) =
        SchemaEntry.scrape_html pj parse ts₁ ++
          e :: SchemaEntry.scrape_html pj parse ts₂) ∧
    (∀ pj parse t ts₁ ts₂, SchemaEntry.from_json_str pj parse t = none →
      SchemaEntry.scrape_html pj parse (ts₁ ++ t :: ts₂) =
        SchemaEntry.scrape_html pj parse ts₁ ++
          SchemaEntry.scrape_html pj parse ts₂) ∧
    (∀ pj parse good bad, pj good = some jRecipeA → pj bad = none →
      SchemaEntry.scrape_html pj parse [good, bad] =
        [.Single (.Recipe recipeA)]) := by
  refine ⟨?_, ?_, ?_⟩
  · intro pj parse t ts₁ ts₂ e h
    simp [SchemaEntry.scrape_html, List.filterMap_append, h]
  · intro pj parse t ts₁ ts₂ h
    simp [SchemaEntry.scrape_html, List.filterMap_append, h]
  · intro pj parse good bad hg hb
    simp [SchemaEntry.scrape_html, List.filterMap, SchemaEntry.from_json_str,
      hg, hb]
    rfl

/-- Witness for C6 with a concrete JSON parser: one good block and one
malformed block produce exactly one envelope. -/
theorem C6_witness :
    SchemaEntry.scrape_html pj0 (fun _ => none) ["good", "bad"] =
      [.Single (.Recipe recipeA)] :=
  C6_scrape_discards_failures.2.2 pj0 (fun _ => none) "good" "bad" rfl rfl

/-- Counterexample to C2: a lone JSON object — one of the expected general
top-level shapes — whose only key is `@type` (an unrelated schema.org type
carrying neither recipe fields nor `@context`) makes the envelope decode
fail, as does the empty object; so "every contained object either decodes as
a Recipe or falls back to a placeholder variant" does not hold. -/
theorem C2_counterexample :
    SchemaEntry.deserialize (fun _ => none)
      (.obj [("@type", .str "BreadcrumbList")]) = none ∧
    SchemaEntry.deserialize (fun _ => none) (.obj []) = none :=
  ⟨rfl, rfl⟩

/-- C2 as amended: the envelope decode of an expected top-level shape
succeeds exactly when every contained object either decodes as a `Recipe`
or carries the respective placeholder key with a string value — `@id` for
`@graph` entries, `@context` for a lone item or the items of an array; an
object with neither fails the envelope even though its general shape is
expected. -/
theorem C2_envelope_amended (parse : String → Option Duration) :
    (∀ fs, (GraphEntry.deserialize parse (.obj fs)).isSome ↔
      ((Recipe.deserialize parse (.obj fs)).isSome ∨
        ∃ s, Json.find? fs "@id" = some (.str s))) ∧
    (∀ fs, (SchemaItem.deserialize parse (.obj fs)).isSome ↔
      ((Recipe.deserialize parse (.obj fs)).isSome ∨
        ∃ s, Json.find? fs "@context" = some (.str s))) ∧
    (∀ xs, (SchemaEntry.deserialize parse (.arr xs)).isSome ↔
      ∀ j ∈ xs, (SchemaItem.deserialize parse j).isSome) ∧
    (∀ fs, (SchemaEntry.deserialize parse (.obj fs)).isSome ↔
      ((∃ l, Json.find? fs "@graph" = some (.arr l) ∧
          ∀ j ∈ l, (GraphEntry.deserialize parse j).isSome) ∨
        (SchemaItem.deserialize parse (.obj fs)).isSome)) := by
  refine ⟨?_, ?_, ?_, ?_⟩
  · intro fs
    simp [GraphEntry.deserialize, decodeRecipe, orElse_isSome_iff,
      bind_map_decodeString_isSome_iff]
  · intro fs
    simp [SchemaItem.deserialize, decodeRecipe, orElse_isSome_iff,
      bind_map_decodeString_isSome_iff]
  · intro xs
    simp [SchemaEntry.deserialize, SchemaItem.deserialize, decodeRecipe,
      Recipe.deserialize, orElse_isSome_iff, decodeList, decodeEach_isSome_iff]
  · intro fs
    simp [SchemaEntry.deserialize, orElse_isSome_iff,
      bind_map_decodeList_isSome_iff]
    simp [decodeList]

/-- Witness for C2's amended characterization: a lone object carrying only
`@context` decodes as an envelope. -/
theorem C2_witness :
    (SchemaEntry.deserialize (fun _ => none)
      (.obj [("@context", .str "https://schema.org")])).isSome :=
  ((C2_envelope_amended (fun _ => none)).2.2.2 _).mpr
    (Or.inr (((C2_envelope_amended (fun _ => none)).2.1 _).mpr
      (Or.inr ⟨"https://schema.org", rfl⟩)))

/-- Counterexample to C3: a recipe object with all mandatory fields present
but `recipeYield` set to `true` (an optional field whose value matches none
of its candidate shapes) fails the whole record instead of resolving the
field to absence. -/
theorem C3_counterexample :
    Recipe.deserialize (fun _ => none)
      (.obj [("name", .str "A"), ("description", .str "B"),
        ("recipeIngredient", .str "x"), ("recipeYield", .bool true)]) = none :=
  rfl

/-- C3 as amended: decoding a JSON object as a `Recipe` fails iff a
mandatory field (name, description, ingredients) is missing or has a shape
none of its candidates match, or an optional `recipeYield` or
`recipeInstructions` value is present, non-null, and matches none of its
candidate shapes; only the three duration fields resolve a present
unparseable value to absence without failing the record, and no cross-field
validation is performed (the duration keys impose no condition at all on
decode success). -/
theorem C3_recipe_decode_amended (parse : String → Option Duration) :
    (∀ fs, (Recipe.deserialize parse (.obj fs)).isSome ↔
      (((Json.find? fs "name").bind decodeString).isSome ∧
       ((Json.find? fs "description").bind decodeString).isSome ∧
       ((Json.find? fs "recipeIngredient").bind IngredientList.deserialize).isSome ∧
       presentFieldOk Yield.deserialize (Json.find? fs "recipeYield") ∧
       presentFieldOk InstructionList.deserialize
         (Json.find? fs "recipeInstructions"))) ∧
    (∀ fs v r, Recipe.deserialize parse (.obj fs) = some r → v ≠ .null →
      (decodeString v).bind parse = none →
      ((Json.find? fs "cookTime" = some v → r.cook_time = some ⟨none⟩) ∧
       (Json.find? fs "prepTime" = some v → r.prep_time = some ⟨none⟩) ∧
       (Json.find? fs "totalTime" = some v → r.total_time = some ⟨none⟩))) := by
  constructor
  · intro fs
    rw [recipe_deserialize_isSome_iff parse fs,
      decodeOptField_isSome_iff, decodeOptField_isSome_iff]
  · intro fs v r h hne hp
    obtain ⟨hc, hpr, ht⟩ := recipe_duration_components parse fs r h
    refine ⟨fun hf => ?_, fun hf => ?_, fun hf => ?_⟩
    · rw [hc, hf, durationField_some_eq parse v hne, hp]
    · rw [hpr, hf, durationField_some_eq parse v hne, hp]
    · rw [ht, hf, durationField_some_eq parse v hne, hp]

/-- Witness for C3's amended characterization: the object `fsC3` with an
unparseable numeric `cookTime` decodes successfully, and the decoded record
holds an absent duration for that field. -/
theorem C3_witness :
    (Recipe.deserialize (fun _ => none) (.obj fsC3)).isSome ∧
    recipeC3.cook_time = some ⟨none⟩ :=
  ⟨((C3_recipe_decode_amended (fun _ => none)).1 fsC3).mpr
      ⟨rfl, rfl, rfl, trivial, trivial⟩,
   ((C3_recipe_decode_amended (fun _ => none)).2 fsC3 (.num 5) recipeC3 rfl
      (fun h => Json.noConfusion h) rfl).1 rfl⟩
